import Mathlib

/-!
Verification of the Sci-Calc expression evaluation engine
(src/src/engine/evaluate.ts).

The engine is a three stage pipeline: tokenizer, shunting-yard translator
to RPN, and a postfix evaluator over IEEE doubles, exposed through a single
entry point evaluate(expression, context).

Modelling conventions used throughout this development:

* A JavaScript number is modelled by the type JsNum: a finite value is an
  exact rational (every finite IEEE double is a rational number), plus the
  special values negative zero, NaN, positive infinity and negative
  infinity.  Finite arithmetic is exact; a finite result whose magnitude
  exceeds the largest finite double overflows to the corresponding
  infinity, as it does in IEEE arithmetic.  Rounding of in-range finite
  results is not modelled: on every concrete input appearing in the claims
  the IEEE computation is exact, so the idealisation agrees with the code.
* The transcendental library functions (Math.sin, Math.asin, Math.log,
  Math.exp, Math.sqrt and friends) and Math.pow on a positive base with a
  non-integer exponent return values that are not rational; they are kept
  abstract as fields of a MathLib structure, and every theorem below holds
  for an arbitrary MathLib instance.  All integer-exponent powers, the
  arithmetic operators, Math.abs, Math.min and Math.max are modelled
  concretely, following the ECMAScript Number semantics.
* Exceptions thrown with throw new Error(msg) are modelled by the Except
  String monad carrying the exact message strings of the source; the
  try/catch in evaluate is the propagation of that Except value.
* JavaScript arrays used as stacks push and pop at the end; the model uses
  Lean lists with the top of the stack at the head.
-/

/-- Exponentiation of integers by squaring, with enough fuel to finish
(the recursion depth is logarithmic in the exponent, so the evaluator can
unfold powers with very large exponents such as 10 ^ 999). -/
def ipowAux : Nat → Int → Nat → Int
  | 0, _, _ => 1
  | fuel + 1, b, n =>
    if n = 0 then 1
    else
      let h := ipowAux fuel (b * b) (n / 2)
      if n % 2 = 1 then h * b else h

/-- b ^ n on integers, computed by squaring. -/
def ipow (b : Int) (n : Nat) : Int := ipowAux (n + 1) b n

/-- Model of a JavaScript number: an exact rational for a finite value
(fin 0 is positive zero), plus negative zero, NaN and the two infinities. -/
inductive JsNum where
  | fin (q : ℚ)
  | negZero
  | nan
  | inf
  | negInf
deriving DecidableEq, Repr

/-- The largest finite IEEE double, (2 ^ 53 - 1) * 2 ^ 971. -/
def DBL_MAX : ℚ := mkRat ((ipow 2 53 - 1) * ipow 2 971) 1

/-- Build a finite JsNum from an exact rational, overflowing to an infinity
beyond the double range, as IEEE arithmetic does. -/
def mkFin (q : ℚ) : JsNum :=
  if Rat.blt DBL_MAX q then .inf
  else if Rat.blt q (Rat.neg DBL_MAX) then .negInf
  else .fin q

/-- Number.isFinite: true exactly on finite values (including both zeros). -/
def JsNum.isFinite : JsNum → Bool
  | .fin _ => true
  | .negZero => true
  | _ => false

/-- Number.isNaN. -/
def JsNum.isNaN : JsNum → Bool
  | .nan => true
  | _ => false

/-- Numeric equality with zero (the JavaScript test x === 0, under which
negative zero and positive zero are equal and NaN is not zero). -/
def JsNum.isZero : JsNum → Bool
  | .fin q => q = 0
  | .negZero => true
  | _ => false

/-- The sign bit: true for negative values, negative zero and negative
infinity.  NaN is given a false sign bit (its sign never matters below). -/
def JsNum.signB : JsNum → Bool
  | .fin q => Rat.blt q 0
  | .negZero => true
  | .negInf => true
  | _ => false

/-- The rational carried by a finite value (0 for negative zero and for the
special values; only used where the value is known finite). -/
def JsNum.finVal : JsNum → ℚ
  | .fin q => q
  | _ => 0

/-- The JavaScript < comparison: false whenever either side is NaN, the two
zeros are equal, infinities compare as expected. -/
def jsLt : JsNum → JsNum → Bool
  | .nan, _ => false
  | _, .nan => false
  | .negInf, .negInf => false
  | .negInf, _ => true
  | _, .negInf => false
  | .inf, _ => false
  | _, .inf => true
  | .fin a, .fin b => Rat.blt a b
  | .negZero, .fin b => Rat.blt 0 b
  | .fin a, .negZero => Rat.blt a 0
  | .negZero, .negZero => false

/-- The JavaScript <= comparison: false whenever either side is NaN,
otherwise the negation of the reversed strict comparison. -/
def jsLe (a b : JsNum) : Bool := !a.isNaN && !b.isNaN && !jsLt b a

/-- JavaScript unary negation: flips the sign, exchanging the two zeros. -/
def jsNeg : JsNum → JsNum
  | .fin q => if q = 0 then .negZero else .fin (Rat.neg q)
  | .negZero => .fin 0
  | .nan => .nan
  | .inf => .negInf
  | .negInf => .inf

/-- Exact rational addition expressed through the normalising constructor. -/
def qAdd (a b : ℚ) : ℚ := mkRat (a.num * b.den + b.num * a.den) (a.den * b.den)

/-- Exact rational multiplication expressed through the normalising
constructor. -/
def qMul (a b : ℚ) : ℚ := mkRat (a.num * b.num) (a.den * b.den)

/-- Exact rational division (the divisor is nonzero at every use). -/
def qDiv (a b : ℚ) : ℚ := Rat.divInt (a.num * b.den) (a.den * b.num)

/-- IEEE addition on JsNum: NaN propagates, opposite infinities give NaN,
negative zero only survives from (-0) + (-0), finite sums are exact with
overflow to infinity. -/
def jsAdd : JsNum → JsNum → JsNum
  | .nan, _ => .nan
  | _, .nan => .nan
  | .inf, .negInf => .nan
  | .negInf, .inf => .nan
  | .inf, _ => .inf
  | _, .inf => .inf
  | .negInf, _ => .negInf
  | _, .negInf => .negInf
  | .negZero, .negZero => .negZero
  | .negZero, .fin b => .fin b
  | .fin a, .negZero => .fin a
  | .fin a, .fin b => mkFin (qAdd a b)

/-- IEEE subtraction: addition of the negation (exact in IEEE as well). -/
def jsSub (a b : JsNum) : JsNum := jsAdd a (jsNeg b)

/-- IEEE multiplication on JsNum: NaN propagates, infinity times zero is
NaN, zero results and infinite results carry the xor of the sign bits,
finite products are exact with overflow to infinity. -/
def jsMul (a b : JsNum) : JsNum :=
  if a.isNaN || b.isNaN then .nan
  else if a.isFinite && b.isFinite then
    let p := qMul a.finVal b.finVal
    if p = 0 then (if a.signB ≠ b.signB then .negZero else .fin 0)
    else mkFin p
  else if a.isZero || b.isZero then .nan
  else if a.signB ≠ b.signB then .negInf
  else .inf

/-- IEEE division on JsNum: NaN propagates, infinity over infinity is NaN,
infinity over finite is a signed infinity, finite over infinity is a signed
zero, finite over zero is NaN (0/0) or a signed infinity, finite quotients
are exact.  The evaluator guards the divisor, so the zero-divisor branches
are unreachable from the pipeline. -/
def jsDiv (a b : JsNum) : JsNum :=
  if a.isNaN || b.isNaN then .nan
  else if !a.isFinite && !b.isFinite then .nan
  else if !a.isFinite then (if a.signB ≠ b.signB then .negInf else .inf)
  else if !b.isFinite then (if a.signB ≠ b.signB then .negZero else .fin 0)
  else if b.isZero then
    (if a.isZero then .nan
     else if a.signB ≠ b.signB then .negInf else .inf)
  else
    let q := qDiv a.finVal b.finVal
    if q = 0 then (if a.signB ≠ b.signB then .negZero else .fin 0)
    else mkFin q

/-- Is this rational an integer (for the integral-exponent test of pow)? -/
def qIsInt (q : ℚ) : Bool := q.den = 1

/-- Is this rational an odd integer (for the sign rules of pow)? -/
def qIsOddInt (q : ℚ) : Bool := q.den = 1 && q.num % 2 ≠ 0

/-- Absolute comparison |a| against 1 used by pow with infinite exponent:
0 below, 1 equal, 2 above (a is finite here). -/
def absCmpOne (a : JsNum) : Nat :=
  let m := if Rat.blt a.finVal 0 then Rat.neg a.finVal else a.finVal
  if Rat.blt m 1 then 0 else if m = 1 then 1 else 2

/-- The abstract part of the JavaScript Math library.  Each field is the
model of the corresponding Math function on JsNum values (their outputs are
irrational in general, so they stay uninterpreted); powIrr is Math.pow
restricted to a positive finite base and a finite non-integer exponent, the
only case of pow whose value is not rational; ln10 is the double constant
Math.LN10.  Every theorem below is proved for an arbitrary instance. -/
structure MathLib where
  sin : JsNum → JsNum
  cos : JsNum → JsNum
  tan : JsNum → JsNum
  asin : JsNum → JsNum
  acos : JsNum → JsNum
  atan : JsNum → JsNum
  log : JsNum → JsNum
  exp : JsNum → JsNum
  sqrt : JsNum → JsNum
  powIrr : ℚ → ℚ → JsNum
  ln10 : ℚ

/-- A trivial MathLib instance, used only to instantiate theorems at
concrete inputs; no theorem depends on its values. -/
def mathlib0 : MathLib where
  sin := fun _ => .nan
  cos := fun _ => .nan
  tan := fun _ => .nan
  asin := fun _ => .nan
  acos := fun _ => .nan
  atan := fun _ => .nan
  log := fun _ => .nan
  exp := fun _ => .nan
  sqrt := fun _ => .nan
  powIrr := fun _ _ => .nan
  ln10 := mkRat 2302585092994046 1000000000000000

/-- Math.pow following the ECMAScript Number exponentiation rules: an
exponent of zero gives 1 even for a NaN base; NaN propagates otherwise;
infinite bases and exponents follow the sign and magnitude rules, where an
exponent that is an odd integer preserves the sign of a zero or infinite
base; a finite nonzero base with an integer exponent is computed exactly
(overflowing to infinity); a negative base with a non-integer exponent is
NaN; the remaining positive-base case is the abstract powIrr. -/
def jsPow (M : MathLib) (a b : JsNum) : JsNum :=
  match b with
  | .nan => .nan
  | .negZero => .fin 1
  | .inf =>
    match a with
    | .nan => .nan
    | .inf => .inf
    | .negInf => .inf
    | _ => match absCmpOne a with
      | 0 => .fin 0
      | 1 => .nan
      | _ => .inf
  | .negInf =>
    match a with
    | .nan => .nan
    | .inf => .fin 0
    | .negInf => .fin 0
    | _ => match absCmpOne a with
      | 0 => .inf
      | 1 => .nan
      | _ => .fin 0
  | .fin e =>
    if e = 0 then .fin 1
    else
      match a with
      | .nan => .nan
      | .inf => if Rat.blt 0 e then .inf else .fin 0
      | .negInf =>
        if Rat.blt 0 e then (if qIsOddInt e then .negInf else .inf)
        else (if qIsOddInt e then .negZero else .fin 0)
      | .negZero =>
        if Rat.blt 0 e then (if qIsOddInt e then .negZero else .fin 0)
        else (if qIsOddInt e then .negInf else .inf)
      | .fin q =>
        if q = 0 then (if Rat.blt 0 e then .fin 0 else .inf)
        else if qIsInt e then
          mkFin (if Rat.blt e 0
            then Rat.divInt (ipow q.den e.num.natAbs) (ipow q.num e.num.natAbs)
            else Rat.divInt (ipow q.num e.num.natAbs) (ipow q.den e.num.natAbs))
        else if Rat.blt 0 q then M.powIrr q e
        else .nan

/-- Math.abs. -/
def jsAbs : JsNum → JsNum
  | .fin q => .fin (if Rat.blt q 0 then Rat.neg q else q)
  | .negZero => .fin 0
  | .nan => .nan
  | .inf => .inf
  | .negInf => .inf

/-- The two-argument core of Math.min: NaN wins, negative zero is treated
as smaller than positive zero. -/
def jsMin2 (a b : JsNum) : JsNum :=
  if a.isNaN || b.isNaN then .nan
  else if jsLt a b then a
  else if jsLt b a then b
  else if a.signB then a else b

/-- The two-argument core of Math.max: NaN wins, positive zero is treated
as larger than negative zero. -/
def jsMax2 (a b : JsNum) : JsNum :=
  if a.isNaN || b.isNaN then .nan
  else if jsLt a b then b
  else if jsLt b a then a
  else if a.signB then b else a

/-- Math.min spread over an argument list (the fold starts at +Infinity,
as the ECMAScript definition does). -/
def jsMinList (args : List JsNum) : JsNum := args.foldl jsMin2 .inf

/-- Math.max spread over an argument list (the fold starts at -Infinity). -/
def jsMaxList (args : List JsNum) : JsNum := args.foldl jsMax2 .negInf

/-- The angle mode of the evaluation context ("DEG" or "RAD"). -/
inductive Mode where
  | DEG
  | RAD
deriving DecidableEq, Repr

/-- The evaluation context: angle mode plus the optional prior result that
the variable ans refers to. -/
structure EvalContext where
  mode : Mode
  ans : Option JsNum := none

/-- Lexical tokens produced by the tokenizer.  The paren constructor keeps
the source shape of a single paren token whose value is an opening or
closing character (true is the opening paren). -/
inductive Token where
  | number (value : JsNum)
  | op (value : String)
  | paren (lp : Bool)
  | comma
  | function (name : String)
  | var (name : String)
deriving DecidableEq, Repr

/-- RPN instructions consumed by the postfix evaluator. -/
inductive RpnToken where
  | number (value : JsNum)
  | op (value : String)
  | function (name : String) (argCount : Nat)
  | var (name : String)
deriving DecidableEq, Repr

/-- The closed set of known function names. -/
def FUNCTIONS : List String :=
  ["sin", "cos", "tan", "asin", "acos", "atan", "log", "ln",
   "sqrt", "abs", "exp", "min", "max"]

/-- The exact rational value of the double constant Math.PI. -/
def piQ : ℚ := mkRat 884279719003555 281474976710656

/-- The exact rational value of the double constant Math.E. -/
def eQ : ℚ := mkRat 6121026514868073 2251799813685248

/-- Operator precedence table (0 stands for the absent key of the source
record; it is never consulted for a key outside the table). -/
def PRECEDENCE : String → Nat
  | "^" => 4
  | "u+" => 3
  | "u-" => 3
  | "*" => 2
  | "/" => 2
  | "+" => 1
  | "-" => 1
  | _ => 0

/-- The set of right-associative operator symbols. -/
def RIGHT_ASSOC (s : String) : Bool := s = "^" || s = "u+" || s = "u-"

/-- Character class of the tokenizer: decimal digits. -/
def isDigit (c : Char) : Bool := '0' ≤ c && c ≤ '9'

/-- Character class of the tokenizer: ASCII letters. -/
def isAlpha (c : Char) : Bool := ('a' ≤ c && c ≤ 'z') || ('A' ≤ c && c ≤ 'Z')

/-- Character class of the tokenizer: whitespace (the inputs of this
engine only contain ASCII whitespace). -/
def isWhitespace (c : Char) : Bool := c = ' ' || c = '\t' || c = '\n' || c = '\r'

/-- Character class of the tokenizer: operator characters, including the
display glyphs for multiplication and division. -/
def isOperator (c : Char) : Bool :=
  c = '+' || c = '-' || c = '*' || c = '/' || c = '^' || c = '×' || c = '÷'

/-- Normalisation of the display glyphs to the ASCII operator symbols. -/
def normalizeOperator (c : Char) : String :=
  if c = '×' then "*" else if c = '÷' then "/" else String.singleton c

/-- The natural number denoted by a list of decimal digits. -/
def digitsVal (ds : List Char) : Nat :=
  ds.foldl (fun n c => 10 * n + (c.toNat - '0'.toNat)) 0

/-- 10 ^ n as an exact rational. -/
def pow10 (n : Nat) : ℚ := mkRat (ipow 10 n) 1

/-- The exact value denoted by a numeric literal with integer digits ip,
fraction digits fp and a signed decimal exponent: this is the mathematical
value that Number.parseFloat converts (the conversion to a double happens
in mkFin at the use site). -/
def litVal (ip fp : List Char) (e : Option (Bool × List Char)) : ℚ :=
  let mant : ℚ := qAdd (mkRat (digitsVal ip) 1) (qDiv (mkRat (digitsVal fp) 1) (pow10 fp.length))
  match e with
  | none => mant
  | some (neg, ds) => if neg then qDiv mant (pow10 (digitsVal ds)) else qMul mant (pow10 (digitsVal ds))

/-- Scan of the digits-and-one-dot mantissa of a numeric literal: returns
the integer digits, the fraction digits (with a flag recording whether a
dot was consumed) and the unconsumed rest.  The source consumes digits and
at most one dot in a single loop, stopping at a second dot; that is the
same as a digit run, then optionally a dot and a second digit run. -/
def scanMantissa (cs : List Char) : List Char × Option (List Char) × List Char :=
  let ip := cs.takeWhile isDigit
  match cs.drop ip.length with
  | '.' :: t => (ip, some (t.takeWhile isDigit), t.drop (t.takeWhile isDigit).length)
  | r => (ip, none, r)

/-- Scan of the optional exponent suffix: an e or E, an optional sign and
at least one digit; if no digit follows, nothing is consumed (the e will be
scanned again as an identifier character).  Returns the sign flag and the
exponent digits together with the unconsumed rest. -/
def scanExponent (cs : List Char) : Option (Bool × List Char) × List Char :=
  match cs with
  | c :: t =>
    if c = 'e' || c = 'E' then
      match t with
      | s :: t2 =>
        if s = '+' || s = '-' then
          let ds := t2.takeWhile isDigit
          if ds.isEmpty then (none, cs) else (some (s = '-', ds), t2.drop ds.length)
        else
          let ds := t.takeWhile isDigit
          if ds.isEmpty then (none, cs) else (some (false, ds), t.drop ds.length)
      | [] => (none, cs)
    else (none, cs)
  | [] => (none, cs)

/-- One pass of the tokenizer loop over the remaining characters.  The fuel
argument only serves the termination checker: every iteration consumes at
least one character, so starting the fuel at one more than the length of
the input the zero-fuel branch is never reached. -/
def tokenizeLoop : Nat → List Char → Except String (List Token)
  | 0, _ => .error "計算エラー"
  | fuel + 1, input =>
    match input with
    | [] => .ok []
    | ch :: rest =>
      if isWhitespace ch then tokenizeLoop fuel rest
      else if isDigit ch || ch = '.' then
        let (ip, fp, r1) := scanMantissa input
        let (ex, r2) := scanExponent r1
        let hasDigit := !ip.isEmpty || !(fp.getD []).isEmpty
        if !hasDigit then .error "数値の形式が不正です"
        else
          let value := mkFin (litVal ip (fp.getD []) ex)
          if value.isNaN then .error "数値の形式が不正です"
          else
            match tokenizeLoop fuel r2 with
            | .error e => .error e
            | .ok ts => .ok (.number value :: ts)
      else if isAlpha ch then
        let word := input.takeWhile isAlpha
        let r1 := input.drop word.length
        let name := String.mk (word.map Char.toLower)
        if name ∈ FUNCTIONS then
          match tokenizeLoop fuel r1 with
          | .error e => .error e
          | .ok ts => .ok (.function name :: ts)
        else if name = "pi" then
          match tokenizeLoop fuel r1 with
          | .error e => .error e
          | .ok ts => .ok (.number (.fin piQ) :: ts)
        else if name = "e" then
          match tokenizeLoop fuel r1 with
          | .error e => .error e
          | .ok ts => .ok (.number (.fin eQ) :: ts)
        else if name = "ans" then
          match tokenizeLoop fuel r1 with
          | .error e => .error e
          | .ok ts => .ok (.var name :: ts)
        else .error ("未知のトークン: " ++ name)
      else if ch = 'π' then
        match tokenizeLoop fuel rest with
        | .error e => .error e
        | .ok ts => .ok (.number (.fin piQ) :: ts)
      else if ch = ',' then
        match tokenizeLoop fuel rest with
        | .error e => .error e
        | .ok ts => .ok (.comma :: ts)
      else if ch = '(' then
        match tokenizeLoop fuel rest with
        | .error e => .error e
        | .ok ts => .ok (.paren true :: ts)
      else if ch = ')' then
        match tokenizeLoop fuel rest with
        | .error e => .error e
        | .ok ts => .ok (.paren false :: ts)
      else if isOperator ch then
        match tokenizeLoop fuel rest with
        | .error e => .error e
        | .ok ts => .ok (.op (normalizeOperator ch) :: ts)
      else .error ("未知の文字: " ++ String.singleton ch)

/-- The tokenizer: raw text to token sequence or a lexical error. -/
def tokenize (input : String) : Except String (List Token) :=
  tokenizeLoop (input.length + 1) input.toList

instance {ε α : Type} [DecidableEq ε] [DecidableEq α] : DecidableEq (Except ε α) := fun a b =>
  match a, b with
  | .ok x, .ok y =>
    if h : x = y then .isTrue (by rw [h])
    else .isFalse (fun he => by cases he; exact h rfl)
  | .error x, .error y =>
    if h : x = y then .isTrue (by rw [h])
    else .isFalse (fun he => by cases he; exact h rfl)
  | .ok _, .error _ => .isFalse (fun he => by cases he)
  | .error _, .ok _ => .isFalse (fun he => by cases he)

/-- Conversion of a stack token to an RPN instruction when it is popped to
the output: a function popped this way carries argCount 1.  The paren and
comma cases throw in the source; parens are never passed here (the popping
loops stop at them) and commas are never pushed on the stack. -/
def toRpnToken : Token → Except String RpnToken
  | .number v => .ok (.number v)
  | .op v => .ok (.op v)
  | .var n => .ok (.var n)
  | .function n => .ok (.function n 1)
  | _ => .error "トークン変換エラー"

/-- Pop stack tokens to the output until a paren is on top (or the stack is
empty), as the comma and closing-paren branches do.  Returns the grown
output and the remaining stack. -/
def popToParen : List Token → List RpnToken → Except String (List RpnToken × List Token)
  | [], out => .ok (out, [])
  | t :: rest, out =>
    match t with
    | .paren b => .ok (out, .paren b :: rest)
    | _ =>
      match toRpnToken t with
      | .error e => .error e
      | .ok r => popToParen rest (out ++ [r])

/-- The precedence-driven pop loop of the binary-operator branch: pop
operators from the stack top while the incoming operator should yield to
them (strictly higher precedence for a right-associative incoming operator,
higher-or-equal otherwise). -/
def popOps (op : String) : List Token → List RpnToken → List RpnToken × List Token
  | [], out => (out, [])
  | t :: rest, out =>
    match t with
    | .op topOp =>
      let shouldPop := if RIGHT_ASSOC op then PRECEDENCE op < PRECEDENCE topOp
        else PRECEDENCE op ≤ PRECEDENCE topOp
      if shouldPop then popOps op rest (out ++ [.op topOp]) else (out, t :: rest)
    | _ => (out, t :: rest)

/-- The kinds tracked by the last-significant-token state of the
translator. -/
inductive LastKind where
  | start
  | value
  | operator
  | lparen
  | rparen
  | comma
  | function
deriving DecidableEq, Repr

/-- The state threaded through the translation loop: the RPN output built
so far, the operator/function stack, the per-open-paren argument counter
stack (none marks a grouping paren, some k a function call group with k
commas seen) and the last-significant-token kind. -/
structure RpnState where
  output : List RpnToken
  stack : List Token
  argStack : List (Option Nat)
  lastType : LastKind
deriving DecidableEq, Repr

/-- The initial translation state. -/
def initState : RpnState := ⟨[], [], [], .start⟩

/-- One step of the shunting-yard translation, processing a single token
exactly as the body of the toRpn loop does.  The closing-paren branch needs
the argument-counter stack to be nonempty when a paren was found on the
stack; that always holds (each open paren pushes one counter and each
close pops one), so the empty case, where the source would read undefined
from argStack.pop(), is modelled by the unbalanced-paren error it could
never produce. -/
def toRpnStep (st : RpnState) (t : Token) : Except String RpnState :=
  match t with
  | .number v => .ok { st with output := st.output ++ [.number v], lastType := .value }
  | .var n => .ok { st with output := st.output ++ [.var n], lastType := .value }
  | .function n => .ok { st with stack := .function n :: st.stack, lastType := .function }
  | .comma =>
    match st.argStack with
    | [] => .error "カンマの位置が不正です"
    | none :: _ => .error "カンマの位置が不正です"
    | some k :: restArgs =>
      if st.lastType = .comma || st.lastType = .lparen then .error "関数の引数が不足しています"
      else
        match popToParen st.stack st.output with
        | .error e => .error e
        | .ok (out, stk) =>
          .ok { output := out, stack := stk, argStack := some (k + 1) :: restArgs, lastType := .comma }
  | .paren true =>
    .ok { st with
          stack := .paren true :: st.stack
          argStack := (if st.lastType = .function then some 0 else none) :: st.argStack
          lastType := .lparen }
  | .paren false =>
    if st.lastType = .comma || st.lastType = .lparen then .error "関数の引数が不足しています"
    else
      match popToParen st.stack st.output with
      | .error e => .error e
      | .ok (out, stk) =>
        match stk with
        | [] => .error "括弧が対応していません"
        | _ :: stk2 =>
          match st.argStack with
          | [] => .error "括弧が対応していません"
          | argTop :: restArgs =>
            match argTop with
            | none => .ok { output := out, stack := stk2, argStack := restArgs, lastType := .rparen }
            | some k =>
              match stk2 with
              | .function fname :: stk3 =>
                .ok { output := out ++ [.function fname (k + 1)], stack := stk3, argStack := restArgs, lastType := .rparen }
              | _ => .error "関数の構文が不正です"
  | .op v =>
    let isUnary := (v = "+" || v = "-") &&
      (st.lastType = .start || st.lastType = .operator ||
       st.lastType = .lparen || st.lastType = .comma)
    let op := if isUnary then (if v = "+" then "u+" else "u-") else v
    if isUnary then .ok { st with stack := .op op :: st.stack, lastType := .operator }
    else
      let (out, stk) := popOps op st.stack st.output
      .ok { st with output := out, stack := .op op :: stk, lastType := .operator }

/-- The translation loop over the whole token sequence. -/
def toRpnLoop : List Token → RpnState → Except String RpnState
  | [], st => .ok st
  | t :: rest, st =>
    match toRpnStep st t with
    | .error e => .error e
    | .ok st2 => toRpnLoop rest st2

/-- The final drain of the operator stack: a leftover paren is an
unbalanced-parentheses error, everything else is emitted. -/
def drainStack : List Token → List RpnToken → Except String (List RpnToken)
  | [], out => .ok out
  | t :: rest, out =>
    match t with
    | .paren _ => .error "括弧が対応していません"
    | _ =>
      match toRpnToken t with
      | .error e => .error e
      | .ok r => drainStack rest (out ++ [r])

/-- The shunting-yard translator: token sequence to RPN instruction
sequence, with the end-of-scan dangling-token check and the final drain. -/
def toRpn (tokens : List Token) : Except String (List RpnToken) :=
  match toRpnLoop tokens initState with
  | .error e => .error e
  | .ok st =>
    if st.lastType = .operator || st.lastType = .comma ||
       st.lastType = .lparen || st.lastType = .function then .error "式の構文が不正です"
    else drainStack st.stack st.output

/-- Pop count arguments off the evaluation stack, restoring source order
(the source splices them off the end of its array, which returns them in
push order; with the stack head as top that is the reverse of the first
count entries).  Underflow is the missing-arguments error. -/
def pullArgs (stack : List JsNum) (count : Nat) : Except String (List JsNum × List JsNum) :=
  if stack.length < count then .error "関数の引数が不足しています"
  else .ok ((stack.take count).reverse, stack.drop count)

/-- The arity check shared by the fixed-arity functions. -/
def ensureArity (name : String) (actual expected : Nat) : Except String Unit :=
  if actual ≠ expected then .error (name ++ "の引数は" ++ toString expected ++ "個です")
  else .ok ()

/-- Degree-to-radian conversion applied to trig arguments in DEG mode. -/
def toRadians (mode : Mode) (v : JsNum) : JsNum :=
  if mode = .DEG then jsDiv (jsMul v (.fin piQ)) (.fin 180) else v

/-- Radian-to-degree conversion applied to inverse-trig results in DEG
mode. -/
def fromRadians (mode : Mode) (v : JsNum) : JsNum :=
  if mode = .DEG then jsDiv (jsMul v (.fin 180)) (.fin piQ) else v

/-- Math.min(1, Math.max(-1, v)): the clamp applied to inverse-trig
arguments. -/
def clampUnitRange (v : JsNum) : JsNum := jsMin2 (.fin 1) (jsMax2 (.fin (-1)) v)

/-- The exact rational 1e-12, the tolerance of the inverse-trig domain
check. -/
def epsilonQ : ℚ := mkRat 1 1000000000000

/-- The inverse-trig domain check: outside [-1 - eps, 1 + eps] the
argument-out-of-range error is thrown, otherwise the argument is clamped
to [-1, 1]. -/
def ensureInverseTrigDomain (name : String) (v : JsNum) : Except String JsNum :=
  if jsLt v (jsSub (.fin (-1)) (.fin epsilonQ)) || jsLt (jsAdd (.fin 1) (.fin epsilonQ)) v then
    .error (name ++ "の引数は-1から1の範囲です")
  else .ok (clampUnitRange v)

/-- Application of a function instruction to the evaluation stack: pull the
arguments, dispatch on the name with its arity and domain checks, push the
result.  Returns the new stack. -/
def applyFunction (M : MathLib) (ctx : EvalContext) (stack : List JsNum)
    (name : String) (argCount : Nat) : Except String (List JsNum) :=
  match pullArgs stack argCount with
  | .error e => .error e
  | .ok (args, rest) =>
    match name with
    | "sin" =>
      match ensureArity name argCount 1 with
      | .error e => .error e
      | .ok _ => .ok (M.sin (toRadians ctx.mode (args.headD .nan)) :: rest)
    | "cos" =>
      match ensureArity name argCount 1 with
      | .error e => .error e
      | .ok _ => .ok (M.cos (toRadians ctx.mode (args.headD .nan)) :: rest)
    | "tan" =>
      match ensureArity name argCount 1 with
      | .error e => .error e
      | .ok _ => .ok (M.tan (toRadians ctx.mode (args.headD .nan)) :: rest)
    | "asin" =>
      match ensureArity name argCount 1 with
      | .error e => .error e
      | .ok _ =>
        match ensureInverseTrigDomain name (args.headD .nan) with
        | .error e => .error e
        | .ok c => .ok (fromRadians ctx.mode (M.asin c) :: rest)
    | "acos" =>
      match ensureArity name argCount 1 with
      | .error e => .error e
      | .ok _ =>
        match ensureInverseTrigDomain name (args.headD .nan) with
        | .error e => .error e
        | .ok c => .ok (fromRadians ctx.mode (M.acos c) :: rest)
    | "atan" =>
      match ensureArity name argCount 1 with
      | .error e => .error e
      | .ok _ => .ok (fromRadians ctx.mode (M.atan (args.headD .nan)) :: rest)
    | "log" =>
      match ensureArity name argCount 1 with
      | .error e => .error e
      | .ok _ =>
        if jsLe (args.headD .nan) (.fin 0) then .error "logの引数は正の値のみです"
        else .ok (jsDiv (M.log (args.headD .nan)) (.fin M.ln10) :: rest)
    | "ln" =>
      match ensureArity name argCount 1 with
      | .error e => .error e
      | .ok _ =>
        if jsLe (args.headD .nan) (.fin 0) then .error "lnの引数は正の値のみです"
        else .ok (M.log (args.headD .nan) :: rest)
    | "sqrt" =>
      match ensureArity name argCount 1 with
      | .error e => .error e
      | .ok _ =>
        if jsLt (args.headD .nan) (.fin 0) then .error "平方根の引数が負です"
        else .ok (M.sqrt (args.headD .nan) :: rest)
    | "abs" =>
      match ensureArity name argCount 1 with
      | .error e => .error e
      | .ok _ => .ok (jsAbs (args.headD .nan) :: rest)
    | "exp" =>
      match ensureArity name argCount 1 with
      | .error e => .error e
      | .ok _ => .ok (M.exp (args.headD .nan) :: rest)
    | "min" =>
      if argCount < 1 then .error "minの引数が不足しています"
      else .ok (jsMinList args :: rest)
    | "max" =>
      if argCount < 1 then .error "maxの引数が不足しています"
      else .ok (jsMaxList args :: rest)
    | _ => .error ("未知の関数: " ++ name)

/-- Application of an operator instruction to the evaluation stack: the
unary forms pop one operand, the binary forms pop the right operand first
and then the left, with the division-by-zero guard on the right operand.
Returns the new stack. -/
def applyOperator (M : MathLib) (stack : List JsNum) (op : String) : Except String (List JsNum) :=
  if op = "u+" || op = "u-" then
    match stack with
    | [] => .error "単項演算子の引数がありません"
    | v :: rest => .ok ((if op = "u-" then jsNeg v else v) :: rest)
  else
    match stack with
    | right :: left :: rest =>
      match op with
      | "+" => .ok (jsAdd left right :: rest)
      | "-" => .ok (jsSub left right :: rest)
      | "*" => .ok (jsMul left right :: rest)
      | "/" =>
        if right.isZero then .error "ゼロ除算です"
        else .ok (jsDiv left right :: rest)
      | "^" => .ok (jsPow M left right :: rest)
      | _ => .error ("未知の演算子: " ++ op)
    | _ => .error "演算子の引数が不足しています"

/-- The postfix evaluation loop: process each RPN instruction against the
evaluation stack, returning the final stack. -/
def evalRpnLoop (M : MathLib) (ctx : EvalContext) :
    List RpnToken → List JsNum → Except String (List JsNum)
  | [], stack => .ok stack
  | t :: rest, stack =>
    match t with
    | .number v => evalRpnLoop M ctx rest (v :: stack)
    | .var name =>
      if name = "ans" then
        match ctx.ans with
        | none => .error "ANSが未定義です"
        | some v => evalRpnLoop M ctx rest (v :: stack)
      else .error ("未知の変数: " ++ name)
    | .op o =>
      match applyOperator M stack o with
      | .error e => .error e
      | .ok st2 => evalRpnLoop M ctx rest st2
    | .function name n =>
      match applyFunction M ctx stack name n with
      | .error e => .error e
      | .ok st2 => evalRpnLoop M ctx rest st2

/-- The postfix evaluator: run the loop from an empty stack and demand
exactly one final value, anything else being the malformed-expression
error. -/
def evalRpn (M : MathLib) (ctx : EvalContext) (tokens : List RpnToken) : Except String JsNum :=
  match evalRpnLoop M ctx tokens [] with
  | .error e => .error e
  | .ok [v] => .ok v
  | .ok _ => .error "式の評価に失敗しました"

/-- The single entry point: tokenize, reject an empty token sequence,
translate, evaluate, and replace a non-finite result by the generic
computation error.  Thrown errors propagate to the caller as the failure
variant with their message. -/
def evaluate (M : MathLib) (expression : String) (context : EvalContext) : Except String JsNum :=
  match tokenize expression with
  | .error e => .error e
  | .ok tokens =>
    if tokens.length = 0 then .error "空の式です"
    else
      match toRpn tokens with
      | .error e => .error e
      | .ok rpn =>
        match evalRpn M context rpn with
        | .error e => .error e
        | .ok value =>
          if !value.isFinite then .error "計算エラー"
          else .ok value

/-- C5: for every Math library instance and every context, 2^3^2 evaluates
to 512 (the power operator is right-associative) and 10-3-2 evaluates to 5
(subtraction is left-associative). -/
theorem C5_associativity (M : MathLib) (ctx : EvalContext) :
    evaluate M "2^3^2" ctx = .ok (.fin 512) ∧ evaluate M "10-3-2" ctx = .ok (.fin 5) :=
  ⟨rfl, rfl⟩

/-- C6: for every Math library instance and every context, -2^2 evaluates
to -4 (the leading minus becomes the unary form and is applied after the
exponentiation) and 2^-3 evaluates to 0.125 = 1/8. -/
theorem C6_unary_power_precedence (M : MathLib) (ctx : EvalContext) :
    evaluate M "-2^2" ctx = .ok (.fin (-4)) ∧ evaluate M "2^-3" ctx = .ok (.fin (mkRat 1 8)) :=
  ⟨rfl, rfl⟩

/-- C10: the division guard of the evaluator compares the right operand to
zero numerically, so negative zero also triggers the division-by-zero
error: for every left operand the operator application fails, and the full
expression 1 / -0 reports the division-by-zero error rather than an infinite
quotient. -/
theorem C10_negative_zero_division :
    (∀ (M : MathLib) (x : JsNum) (rest : List JsNum),
      applyOperator M (.negZero :: x :: rest) "/" = .error "ゼロ除算です") ∧
    (∀ (M : MathLib) (ctx : EvalContext), evaluate M "1/-0" ctx = .error "ゼロ除算です") :=
  ⟨fun _ _ _ => rfl, fun _ _ => rfl⟩

/-- C3 counterexample: the literal 1e999 overflows the double range, yet
the tokenizer succeeds with an Infinity number token instead of failing
with a lexical error, because the source only rejects a NaN parse result. -/
theorem C3_overflow_literal_counterexample :
    tokenize "1e999" = .ok [.number .inf] ∧ JsNum.inf.isFinite = false := by decide

/-- C3 amended: a numeric literal whose decimal-to-double conversion
overflows is tokenized as an Infinity number token (only a NaN parse fails
the tokenizer), and the failure surfaces from evaluate as the generic
computation error, not as the malformed-literal lexical error. -/
theorem C3_overflow_literal_generic_error (M : MathLib) (ctx : EvalContext) :
    tokenize "1e999" = .ok [.number .inf] ∧
    evaluate M "1e999" ctx = .error "計算エラー" ∧
    "計算エラー" ≠ "数値の形式が不正です" :=
  ⟨rfl, rfl, by decide⟩

/-- C2 counterexample: the token sequence of (1)(2) is accepted by the
translator (two juxtaposed parenthesised values), yet its RPN leaves two
values on the evaluation stack and the final malformed-expression error of
the evaluator fires, so that error is reachable after a successful
translation. -/
theorem C2_single_value_counterexample :
    toRpn [.paren true, .number (.fin 1), .paren false,
           .paren true, .number (.fin 2), .paren false] =
      .ok [.number (.fin 1), .number (.fin 2)] ∧
    evalRpn mathlib0 ⟨.DEG, none⟩ [.number (.fin 1), .number (.fin 2)] =
      .error "式の評価に失敗しました" := by decide

/-- C4 counterexample: in min(1+,2) the comma follows a binary operator,
yet the translator accepts the whole sequence (emitting the operator before
the comma), so a comma directly after a binary operator does not raise a
translation error. -/
theorem C4_comma_after_operator_counterexample :
    toRpn [.function "min", .paren true, .number (.fin 1), .op "+",
           .comma, .number (.fin 2), .paren false] =
      .ok [.number (.fin 1), .op "+", .number (.fin 2), .function "min" 2] := by decide

/-- C8 counterexample: 1/0+ans references ans and the context has no prior
result, yet evaluation fails with the division-by-zero error, not with the
undefined-variable error (the division fails before the ans instruction is
reached). -/
theorem C8_ans_error_counterexample :
    tokenize "1/0+ans" = .ok [.number (.fin 1), .op "/", .number (.fin 0),
                              .op "+", .var "ans"] ∧
    evaluate mathlib0 "1/0+ans" ⟨.DEG, none⟩ = .error "ゼロ除算です" ∧
    "ゼロ除算です" ≠ "ANSが未定義です" := by decide

/-- C1: whenever evaluate returns the success variant the value is finite;
when a tokenized, translated and evaluated expression produces a NaN or
infinite value, evaluate instead returns the failure variant carrying the
generic computation-error message, which differs from every specific
domain-error message of the evaluator. -/
theorem C1_result_finiteness :
    (∀ (M : MathLib) (s : String) (ctx : EvalContext) (v : JsNum),
      evaluate M s ctx = .ok v → v.isFinite = true) ∧
    (∀ (M : MathLib) (s : String) (ctx : EvalContext) (ts : List Token)
        (rpn : List RpnToken) (v : JsNum),
      tokenize s = .ok ts → ts.length ≠ 0 → toRpn ts = .ok rpn →
      evalRpn M ctx rpn = .ok v → v.isFinite = false →
      evaluate M s ctx = .error "計算エラー") ∧
    ("計算エラー" ≠ "ゼロ除算です" ∧ "計算エラー" ≠ "ANSが未定義です" ∧
     "計算エラー" ≠ "logの引数は正の値のみです" ∧ "計算エラー" ≠ "lnの引数は正の値のみです" ∧
     "計算エラー" ≠ "平方根の引数が負です" ∧ "計算エラー" ≠ "asinの引数は-1から1の範囲です" ∧
     "計算エラー" ≠ "acosの引数は-1から1の範囲です") := by
  refine ⟨?_, ?_, by decide⟩
  · intro M s ctx v h
    unfold evaluate at h
    cases htok : tokenize s with
    | error e => simp only [htok] at h; exact Except.noConfusion h
    | ok ts =>
      simp only [htok] at h
      by_cases hlen : ts.length = 0
      · rw [if_pos hlen] at h; exact Except.noConfusion h
      · rw [if_neg hlen] at h
        cases hrpn : toRpn ts with
        | error e => simp only [hrpn] at h; exact Except.noConfusion h
        | ok rpn =>
          simp only [hrpn] at h
          cases hev : evalRpn M ctx rpn with
          | error e => simp only [hev] at h; exact Except.noConfusion h
          | ok value =>
            simp only [hev] at h
            cases hf : value.isFinite with
            | true =>
              simp only [hf, Bool.not_true] at h
              cases h
              exact hf
            | false =>
              simp only [hf, Bool.not_false] at h
              exact Except.noConfusion h
  · intro M s ctx ts rpn v htok hlen hrpn hev hf
    unfold evaluate
    simp only [htok, hrpn, hev, hf, if_neg hlen, Bool.not_false, if_true]

/-- C1 witness: 2^2000 overflows to infinity during evaluation, and
evaluate reports the generic computation error. -/
theorem C1_result_finiteness_witness :
    evaluate mathlib0 "2^2000" ⟨Mode.DEG, none⟩ = .error "計算エラー" :=
  C1_result_finiteness.2.1 mathlib0 "2^2000" ⟨Mode.DEG, none⟩
    [.number (.fin 2), .op "^", .number (.fin 2000)]
    [.number (.fin 2), .number (.fin 2000), .op "^"] .inf
    (by decide) (by decide) (by decide) (by decide) (by decide)

/-- Every successful operator application pushes a result, so it leaves a
nonempty stack. -/
theorem applyOperator_ok_ne_nil {M : MathLib} {stack : List JsNum} {op : String}
    {st2 : List JsNum} (h : applyOperator M stack op = .ok st2) : st2 ≠ [] := by
  unfold applyOperator at h
  repeat' (first
    | exact Except.noConfusion h
    | (cases h; exact List.cons_ne_nil _ _)
    | split at h)

/-- Every successful function application pushes a result, so it leaves a
nonempty stack. -/
theorem applyFunction_ok_ne_nil {M : MathLib} {ctx : EvalContext} {stack : List JsNum}
    {name : String} {n : Nat} {st2 : List JsNum}
    (h : applyFunction M ctx stack name n = .ok st2) : st2 ≠ [] := by
  unfold applyFunction at h
  repeat' (first
    | exact Except.noConfusion h
    | (cases h; exact List.cons_ne_nil _ _)
    | split at h)

/-- If the evaluation loop starts from a nonempty stack, or has at least
one instruction to run, a successful run ends with a nonempty stack. -/
theorem evalRpnLoop_ok_ne_nil {M : MathLib} {ctx : EvalContext} :
    ∀ (rpn : List RpnToken) (stack out : List JsNum),
      evalRpnLoop M ctx rpn stack = .ok out → (rpn ≠ [] ∨ stack ≠ []) → out ≠ [] := by
  intro rpn
  induction rpn with
  | nil =>
    intro stack out h hd
    simp only [evalRpnLoop] at h
    cases h
    rcases hd with h1 | h2
    · exact absurd rfl h1
    · exact h2
  | cons t rest ih =>
    intro stack out h _
    cases t with
    | number v =>
      simp only [evalRpnLoop] at h
      exact ih _ _ h (Or.inr (List.cons_ne_nil _ _))
    | var name =>
      simp only [evalRpnLoop] at h
      split at h
      · cases hans : ctx.ans with
        | none => simp only [hans] at h; exact Except.noConfusion h
        | some v => simp only [hans] at h; exact ih _ _ h (Or.inr (List.cons_ne_nil _ _))
      · exact Except.noConfusion h
    | op o =>
      simp only [evalRpnLoop] at h
      cases hop : applyOperator M stack o with
      | error e => simp only [hop] at h; exact Except.noConfusion h
      | ok stR => simp only [hop] at h; exact ih _ _ h (Or.inr (applyOperator_ok_ne_nil hop))
    | function name n =>
      simp only [evalRpnLoop] at h
      cases hfn : applyFunction M ctx stack name n with
      | error e => simp only [hfn] at h; exact Except.noConfusion h
      | ok stR => simp only [hfn] at h; exact ih _ _ h (Or.inr (applyFunction_ok_ne_nil hfn))

/-- C2 amended: when translation succeeds on a token sequence with nonempty
RPN output, a completed evaluation run leaves at least one value on the
operand stack; exactly one is not guaranteed (the counterexample shows two),
so the final malformed-expression check of the evaluator is reachable and
needed. -/
theorem C2_translated_rpn_stack_lower_bound :
    ∀ (M : MathLib) (ctx : EvalContext) (ts : List Token) (rpn : List RpnToken)
      (out : List JsNum),
      toRpn ts = .ok rpn → rpn ≠ [] → evalRpnLoop M ctx rpn [] = .ok out → out ≠ [] := by
  intro M ctx ts rpn out _ hne h
  exact evalRpnLoop_ok_ne_nil rpn [] out h (Or.inl hne)

/-- C2 witness: the RPN of 1+2 runs to the single final value 3. -/
theorem C2_translated_rpn_stack_lower_bound_witness :
    evalRpnLoop mathlib0 ⟨Mode.DEG, none⟩
      [.number (.fin 1), .number (.fin 2), .op "+"] [] = .ok [.fin 3] ∧
    ([JsNum.fin 3] : List JsNum) ≠ [] :=
  ⟨by decide, C2_translated_rpn_stack_lower_bound mathlib0 ⟨Mode.DEG, none⟩
      [.number (.fin 1), .op "+", .number (.fin 2)]
      [.number (.fin 1), .number (.fin 2), .op "+"] [.fin 3]
      (by decide) (by decide) (by decide)⟩

/-- A stack without comma tokens always pops to a paren without error (the
conversion of popped tokens only fails on commas, which are never pushed
onto the operator stack, and on parens, at which the loop stops). -/
theorem popToParen_ok_of_no_comma :
    ∀ (stack : List Token) (out : List RpnToken), Token.comma ∉ stack →
      ∃ res, popToParen stack out = .ok res := by
  intro stack
  induction stack with
  | nil => intro out _; exact ⟨_, rfl⟩
  | cons t rest ih =>
    intro out hmem
    have hrest : Token.comma ∉ rest := fun hc => hmem (List.mem_cons_of_mem _ hc)
    cases t with
    | number v => simp only [popToParen, toRpnToken]; exact ih _ hrest
    | op v => simp only [popToParen, toRpnToken]; exact ih _ hrest
    | var n => simp only [popToParen, toRpnToken]; exact ih _ hrest
    | function n => simp only [popToParen, toRpnToken]; exact ih _ hrest
    | paren b => exact ⟨_, rfl⟩
    | comma => exact absurd (List.mem_cons_self _ _) hmem

/-- C4 amended: over any translation state whose operator stack holds no
comma token (commas are never pushed), the comma step succeeds exactly when
the innermost open group is a function call (the argument-counter stack top
is a counter, not the grouping marker) and the last significant token is
neither a comma nor a left paren.  A value or closing paren is not
required: in particular a comma directly after a binary operator is
accepted by the translator, and the missing operand only surfaces at
evaluation time, as the run of min(1+,2) shows. -/
theorem C4_comma_acceptance :
    (∀ st : RpnState, Token.comma ∉ st.stack →
      ((∃ st2, toRpnStep st .comma = .ok st2) ↔
        ((∃ k rest, st.argStack = some k :: rest) ∧
         st.lastType ≠ .comma ∧ st.lastType ≠ .lparen))) ∧
    (∀ (M : MathLib) (ctx : EvalContext),
      evaluate M "min(1+,2)" ctx = .error "演算子の引数が不足しています") := by
  constructor
  · intro st hnc
    constructor
    · rintro ⟨st2, h⟩
      simp only [toRpnStep] at h
      split at h
      · exact Except.noConfusion h
      · exact Except.noConfusion h
      · next k restArgs heq =>
        split at h
        · exact Except.noConfusion h
        · next hcond =>
          simp only [Bool.or_eq_true, decide_eq_true_eq, not_or] at hcond
          split at h
          · exact Except.noConfusion h
          · exact ⟨⟨k, restArgs, heq⟩, hcond.1, hcond.2⟩
    · rintro ⟨⟨k, restArgs, harg⟩, h1, h2⟩
      obtain ⟨res, hp⟩ := popToParen_ok_of_no_comma st.stack st.output hnc
      obtain ⟨out2, stk2⟩ := res
      simp only [toRpnStep, harg, hp]
      have hc1 : decide (st.lastType = LastKind.comma) = false := by simp [h1]
      have hc2 : decide (st.lastType = LastKind.lparen) = false := by simp [h2]
      simp only [hc1, hc2, Bool.or_self, if_false]
      exact ⟨_, rfl⟩
  · intro M ctx
    rfl

/-- The boolean rational comparison agrees with the strict order (the
order on the rationals is definitionally the boolean test). -/
theorem rat_blt_iff {a b : ℚ} : Rat.blt a b = true ↔ a < b := Iff.rfl

/-- The negative form of the comparison bridge. -/
theorem rat_blt_false_iff {a b : ℚ} : Rat.blt a b = false ↔ ¬ a < b := by
  show Rat.blt a b = false ↔ ¬ Rat.blt a b = true
  simp

/-- Ordered finite values satisfy the JavaScript non-strict comparison. -/
theorem jsLe_fin_of_le {a b : ℚ} (h : a ≤ b) : jsLe (.fin a) (.fin b) = true := by
  show (!Rat.blt b a) = true
  rw [rat_blt_false_iff.mpr (not_lt.mpr h)]
  rfl

/-- Math.max(-1, q) on finite values is finite and at least -1. -/
theorem jsMax2_neg_one_fin (q : ℚ) :
    ∃ r : ℚ, jsMax2 (.fin (-1)) (.fin q) = .fin r ∧ -1 ≤ r := by
  unfold jsMax2
  cases h1 : jsLt (.fin (-1)) (.fin q) with
  | true =>
    refine ⟨q, ?_, le_of_lt (rat_blt_iff.mp h1)⟩
    simp [h1, JsNum.isNaN]
  | false =>
    cases h2 : jsLt (.fin q) (.fin (-1)) with
    | true =>
      refine ⟨-1, ?_, le_refl _⟩
      simp [h1, h2, JsNum.isNaN]
    | false =>
      refine ⟨q, ?_, not_lt.mp (rat_blt_false_iff.mp h2)⟩
      simp [h1, h2, JsNum.isNaN]
      rw [show JsNum.signB (JsNum.fin (-1)) = true from by decide]
      simp

/-- Math.min(1, r) on finite values keeps a lower bound and is at most 1. -/
theorem jsMin2_one_fin (r : ℚ) (hr : -1 ≤ r) :
    ∃ s : ℚ, jsMin2 (.fin 1) (.fin r) = .fin s ∧ -1 ≤ s ∧ s ≤ 1 := by
  unfold jsMin2
  cases h1 : jsLt (.fin 1) (.fin r) with
  | true =>
    refine ⟨1, ?_, by norm_num, le_refl _⟩
    simp [h1, JsNum.isNaN]
  | false =>
    cases h2 : jsLt (.fin r) (.fin 1) with
    | true =>
      refine ⟨r, ?_, hr, le_of_lt (rat_blt_iff.mp h2)⟩
      simp [h1, h2, JsNum.isNaN]
    | false =>
      refine ⟨r, ?_, hr, not_lt.mp (rat_blt_false_iff.mp h1)⟩
      simp [h1, h2, JsNum.isNaN]
      rw [show JsNum.signB (JsNum.fin 1) = false from by decide]
      simp

/-- The inverse-trig clamp maps a finite value to a finite value of the
interval [-1, 1]. -/
theorem clampUnitRange_bounds (q : ℚ) :
    ∃ r : ℚ, clampUnitRange (.fin q) = .fin r ∧
      jsLe (.fin (-1)) (.fin r) = true ∧ jsLe (.fin r) (.fin 1) = true := by
  obtain ⟨r, hmax, hr⟩ := jsMax2_neg_one_fin q
  obtain ⟨s, hmin, hs1, hs2⟩ := jsMin2_one_fin r hr
  refine ⟨s, ?_, jsLe_fin_of_le hs1, jsLe_fin_of_le hs2⟩
  unfold clampUnitRange
  rw [hmax, hmin]

/-- A single-argument asin application reduces to the domain check
followed by the abstract inverse sine and the angle-mode conversion. -/
theorem applyFunction_asin_red (M : MathLib) (ctx : EvalContext) (q : ℚ) :
    applyFunction M ctx [.fin q] "asin" 1 =
      match ensureInverseTrigDomain "asin" (.fin q) with
      | .error e => .error e
      | .ok c => .ok [fromRadians ctx.mode (M.asin c)] := rfl

/-- A single-argument acos application reduces to the domain check
followed by the abstract inverse cosine and the angle-mode conversion. -/
theorem applyFunction_acos_red (M : MathLib) (ctx : EvalContext) (q : ℚ) :
    applyFunction M ctx [.fin q] "acos" 1 =
      match ensureInverseTrigDomain "acos" (.fin q) with
      | .error e => .error e
      | .ok c => .ok [fromRadians ctx.mode (M.acos c)] := rfl

/-- C7: a single-argument asin or acos call with a finite argument x fails
with the argument-out-of-range error exactly when x is below -1 - 1e-12 or
above 1 + 1e-12 (the comparison the source performs); inside that tolerance
band the argument is clamped to [-1, 1] and the inverse-trig function is
applied to the clamped value, so an argument slightly beyond 1 succeeds. -/
theorem C7_inverse_trig_domain :
    ∀ (M : MathLib) (ctx : EvalContext) (q : ℚ),
      ((jsLt (.fin q) (jsSub (.fin (-1)) (.fin epsilonQ)) ||
        jsLt (jsAdd (.fin 1) (.fin epsilonQ)) (.fin q)) = true →
        applyFunction M ctx [.fin q] "asin" 1 = .error "asinの引数は-1から1の範囲です" ∧
        applyFunction M ctx [.fin q] "acos" 1 = .error "acosの引数は-1から1の範囲です") ∧
      ((jsLt (.fin q) (jsSub (.fin (-1)) (.fin epsilonQ)) ||
        jsLt (jsAdd (.fin 1) (.fin epsilonQ)) (.fin q)) = false →
        ∃ r : ℚ, clampUnitRange (.fin q) = .fin r ∧
          jsLe (.fin (-1)) (.fin r) = true ∧ jsLe (.fin r) (.fin 1) = true ∧
          applyFunction M ctx [.fin q] "asin" 1 =
            .ok [fromRadians ctx.mode (M.asin (.fin r))] ∧
          applyFunction M ctx [.fin q] "acos" 1 =
            .ok [fromRadians ctx.mode (M.acos (.fin r))]) := by
  intro M ctx q
  constructor
  · intro h
    have hd : ∀ name : String,
        ensureInverseTrigDomain name (.fin q) = .error (name ++ "の引数は-1から1の範囲です") := by
      intro name
      unfold ensureInverseTrigDomain
      rw [h]
      rfl
    constructor
    · rw [applyFunction_asin_red, hd "asin"]; rfl
    · rw [applyFunction_acos_red, hd "acos"]; rfl
  · intro h
    obtain ⟨r, hclamp, hb1, hb2⟩ := clampUnitRange_bounds q
    have hd : ∀ name : String, ensureInverseTrigDomain name (.fin q) = .ok (.fin r) := by
      intro name
      unfold ensureInverseTrigDomain
      rw [h, if_neg Bool.false_ne_true, hclamp]
    refine ⟨r, hclamp, hb1, hb2, ?_, ?_⟩
    · rw [applyFunction_asin_red, hd "asin"]
    · rw [applyFunction_acos_red, hd "acos"]

/-- C7 witness: asin(2) is rejected as out of range, while the slightly
out-of-range asin(1.0000000000005) is accepted and clamped. -/
theorem C7_inverse_trig_domain_witness :
    ((jsLt (.fin 2) (jsSub (.fin (-1)) (.fin epsilonQ)) ||
      jsLt (jsAdd (.fin 1) (.fin epsilonQ)) (.fin 2)) = true ∧
     applyFunction mathlib0 ⟨Mode.DEG, none⟩ [.fin 2] "asin" 1 =
       .error "asinの引数は-1から1の範囲です") ∧
    ((jsLt (.fin (mkRat 10000000000005 10000000000000)) (jsSub (.fin (-1)) (.fin epsilonQ)) ||
      jsLt (jsAdd (.fin 1) (.fin epsilonQ)) (.fin (mkRat 10000000000005 10000000000000))) = false ∧
     ∃ r : ℚ, clampUnitRange (.fin (mkRat 10000000000005 10000000000000)) = .fin r ∧
       jsLe (.fin (-1)) (.fin r) = true ∧ jsLe (.fin r) (.fin 1) = true ∧
       applyFunction mathlib0 ⟨Mode.DEG, none⟩ [.fin (mkRat 10000000000005 10000000000000)] "asin" 1 =
         .ok [fromRadians Mode.DEG (mathlib0.asin (.fin r))] ∧
       applyFunction mathlib0 ⟨Mode.DEG, none⟩ [.fin (mkRat 10000000000005 10000000000000)] "acos" 1 =
         .ok [fromRadians Mode.DEG (mathlib0.acos (.fin r))]) :=
  ⟨⟨by decide, ((C7_inverse_trig_domain mathlib0 ⟨Mode.DEG, none⟩ 2).1 (by decide)).1⟩,
   by decide,
   (C7_inverse_trig_domain mathlib0 ⟨Mode.DEG, none⟩ (mkRat 10000000000005 10000000000000)).2 (by decide)⟩

/-- Popping to a paren only appends to the output: old output entries stay. -/
theorem popToParen_mem :
    ∀ (stack : List Token) (out : List RpnToken) (res : List RpnToken × List Token),
      popToParen stack out = .ok res → ∀ x ∈ out, x ∈ res.1 := by
  intro stack
  induction stack with
  | nil => intro out res h x hx; cases h; exact hx
  | cons t rest ih =>
    intro out res h x hx
    cases t with
    | paren b => simp only [popToParen] at h; cases h; exact hx
    | number v =>
      simp only [popToParen, toRpnToken] at h
      exact ih _ _ h x (List.mem_append_left _ hx)
    | op v =>
      simp only [popToParen, toRpnToken] at h
      exact ih _ _ h x (List.mem_append_left _ hx)
    | var n =>
      simp only [popToParen, toRpnToken] at h
      exact ih _ _ h x (List.mem_append_left _ hx)
    | function n =>
      simp only [popToParen, toRpnToken] at h
      exact ih _ _ h x (List.mem_append_left _ hx)
    | comma => simp only [popToParen, toRpnToken] at h; exact Except.noConfusion h

/-- The precedence pop loop only appends to the output. -/
theorem popOps_mem :
    ∀ (op : String) (stack : List Token) (out : List RpnToken) (x : RpnToken),
      x ∈ out → x ∈ (popOps op stack out).1 := by
  intro op stack
  induction stack with
  | nil => intro out x hx; exact hx
  | cons t rest ih =>
    intro out x hx
    cases t with
    | op topOp =>
      simp only [popOps]
      split <;> split <;> first
        | exact ih _ _ (List.mem_append_left _ hx)
        | exact hx
    | number v => exact hx
    | var n => exact hx
    | function n => exact hx
    | paren b => exact hx
    | comma => exact hx

/-- One translation step only appends to the output: old entries stay. -/
theorem toRpnStep_mem {st : RpnState} {t : Token} {st2 : RpnState}
    (h : toRpnStep st t = .ok st2) : ∀ x ∈ st.output, x ∈ st2.output := by
  intro x hx
  cases t with
  | number v => simp only [toRpnStep] at h; cases h; exact List.mem_append_left _ hx
  | var n => simp only [toRpnStep] at h; cases h; exact List.mem_append_left _ hx
  | function n => simp only [toRpnStep] at h; cases h; exact hx
  | comma =>
    simp only [toRpnStep] at h
    split at h
    · exact Except.noConfusion h
    · exact Except.noConfusion h
    · split at h
      · exact Except.noConfusion h
      · split at h
        · exact Except.noConfusion h
        · next out stk heq =>
          cases h
          exact popToParen_mem _ _ _ heq x hx
  | paren lp =>
    cases lp with
    | true => simp only [toRpnStep] at h; cases h; exact hx
    | false =>
      simp only [toRpnStep] at h
      split at h
      · exact Except.noConfusion h
      · split at h
        · exact Except.noConfusion h
        · next out stk heq =>
          split at h
          · exact Except.noConfusion h
          · split at h
            · exact Except.noConfusion h
            · split at h
              · cases h; exact popToParen_mem _ _ _ heq x hx
              · split at h
                · cases h
                  exact List.mem_append_left _ (popToParen_mem _ _ _ heq x hx)
                · exact Except.noConfusion h
  | op v =>
    simp only [toRpnStep] at h
    split at h
    · cases h; exact hx
    · cases h
      exact popOps_mem _ st.stack st.output x hx

/-- The translation loop only appends to the output. -/
theorem toRpnLoop_mem :
    ∀ (ts : List Token) (st st2 : RpnState), toRpnLoop ts st = .ok st2 →
      ∀ x ∈ st.output, x ∈ st2.output := by
  intro ts
  induction ts with
  | nil => intro st st2 h x hx; simp only [toRpnLoop] at h; cases h; exact hx
  | cons t rest ih =>
    intro st st2 h x hx
    simp only [toRpnLoop] at h
    cases hstep : toRpnStep st t with
    | error e => simp only [hstep] at h; exact Except.noConfusion h
    | ok st3 =>
      simp only [hstep] at h
      exact ih _ _ h x (toRpnStep_mem hstep x hx)

/-- A variable token of the input ends up as a variable instruction in the
output of a successful translation loop. -/
theorem toRpnLoop_var_mem :
    ∀ (ts : List Token) (st st2 : RpnState), toRpnLoop ts st = .ok st2 →
      Token.var "ans" ∈ ts → RpnToken.var "ans" ∈ st2.output := by
  intro ts
  induction ts with
  | nil => intro st st2 _ hmem; cases hmem
  | cons t rest ih =>
    intro st st2 h hmem
    simp only [toRpnLoop] at h
    cases hstep : toRpnStep st t with
    | error e => simp only [hstep] at h; exact Except.noConfusion h
    | ok st3 =>
      simp only [hstep] at h
      rcases List.mem_cons.mp hmem with heq | hrest
      · have hv : RpnToken.var "ans" ∈ st3.output := by
          rw [← heq] at hstep
          simp only [toRpnStep] at hstep
          cases hstep
          exact List.mem_append_right _ (List.mem_singleton_self _)
        exact toRpnLoop_mem rest st3 st2 h _ hv
      · exact ih _ _ h hrest

/-- The final drain only appends to the output. -/
theorem drainStack_mem :
    ∀ (stack : List Token) (out rpn : List RpnToken), drainStack stack out = .ok rpn →
      ∀ x ∈ out, x ∈ rpn := by
  intro stack
  induction stack with
  | nil => intro out rpn h x hx; simp only [drainStack] at h; cases h; exact hx
  | cons t rest ih =>
    intro out rpn h x hx
    cases t with
    | paren b => simp only [drainStack] at h; exact Except.noConfusion h
    | comma => simp only [drainStack, toRpnToken] at h; exact Except.noConfusion h
    | number v =>
      simp only [drainStack, toRpnToken] at h
      exact ih _ _ h x (List.mem_append_left _ hx)
    | op v =>
      simp only [drainStack, toRpnToken] at h
      exact ih _ _ h x (List.mem_append_left _ hx)
    | var n =>
      simp only [drainStack, toRpnToken] at h
      exact ih _ _ h x (List.mem_append_left _ hx)
    | function n =>
      simp only [drainStack, toRpnToken] at h
      exact ih _ _ h x (List.mem_append_left _ hx)

/-- A variable token of the input survives the whole translation into the
RPN output. -/
theorem toRpn_var_mem {ts : List Token} {rpn : List RpnToken}
    (h : toRpn ts = .ok rpn) (hmem : Token.var "ans" ∈ ts) :
    RpnToken.var "ans" ∈ rpn := by
  unfold toRpn at h
  cases hloop : toRpnLoop ts initState with
  | error e => simp only [hloop] at h; exact Except.noConfusion h
  | ok st =>
    simp only [hloop] at h
    split at h
    · exact Except.noConfusion h
    · exact drainStack_mem _ _ _ h _ (toRpnLoop_var_mem ts initState st hloop hmem)

/-- With no prior result in the context, an RPN sequence containing the
ans instruction never evaluates successfully: the loop errors out at the
latest when it reaches that instruction. -/
theorem evalRpnLoop_ans_none {M : MathLib} {ctx : EvalContext} (hans : ctx.ans = none) :
    ∀ (rpn : List RpnToken) (stack : List JsNum), RpnToken.var "ans" ∈ rpn →
      ∃ e, evalRpnLoop M ctx rpn stack = .error e := by
  intro rpn
  induction rpn with
  | nil => intro stack hmem; cases hmem
  | cons t rest ih =>
    intro stack hmem
    rcases List.mem_cons.mp hmem with heq | hrest
    · refine ⟨"ANSが未定義です", ?_⟩
      rw [← heq]
      simp only [evalRpnLoop, hans]
      rfl
    · cases t with
      | number v => simp only [evalRpnLoop]; exact ih _ hrest
      | var name =>
        simp only [evalRpnLoop]
        split
        · rw [hans]; exact ⟨_, rfl⟩
        · exact ⟨_, rfl⟩
      | op o =>
        simp only [evalRpnLoop]
        cases hop : applyOperator M stack o with
        | error e => exact ⟨e, by simp only [hop]⟩
        | ok st2 => simp only [hop]; exact ih _ hrest
      | function name n =>
        simp only [evalRpnLoop]
        cases hfn : applyFunction M ctx stack name n with
        | error e => exact ⟨e, by simp only [hfn]⟩
        | ok st2 => simp only [hfn]; exact ih _ hrest

/-- C8 amended: with a prior result of 7 the expression ans+1 evaluates to
8; with no prior result the bare ans fails with the undefined-variable
error, and more generally every expression whose token stream contains the
ans variable fails to evaluate (the failure message is the undefined
variable one only when the ans instruction is the first failure point). -/
theorem C8_ans_substitution :
    (∀ (M : MathLib) (mode : Mode),
      evaluate M "ans+1" ⟨mode, some (.fin 7)⟩ = .ok (.fin 8)) ∧
    (∀ (M : MathLib) (mode : Mode),
      evaluate M "ans" ⟨mode, none⟩ = .error "ANSが未定義です") ∧
    (∀ (M : MathLib) (ctx : EvalContext) (s : String) (ts : List Token),
      ctx.ans = none → tokenize s = .ok ts → Token.var "ans" ∈ ts →
      ∃ e, evaluate M s ctx = .error e) := by
  refine ⟨fun M mode => rfl, fun M mode => rfl, ?_⟩
  intro M ctx s ts hans htok hmem
  unfold evaluate
  simp only [htok]
  have hlen : ¬ ts.length = 0 := by
    intro h0
    rw [List.length_eq_zero] at h0
    subst h0
    cases hmem
  rw [if_neg hlen]
  cases hrpn : toRpn ts with
  | error e => exact ⟨e, rfl⟩
  | ok rpn =>
    simp only [hrpn]
    obtain ⟨e, he⟩ := evalRpnLoop_ans_none hans rpn [] (toRpn_var_mem hrpn hmem)
    refine ⟨e, ?_⟩
    unfold evalRpn
    rw [he]

/-- C8 witness: ans*2 with no prior result fails to evaluate. -/
theorem C8_ans_substitution_witness :
    ∃ e, evaluate mathlib0 "ans*2" ⟨Mode.RAD, none⟩ = .error e :=
  C8_ans_substitution.2.2 mathlib0 ⟨Mode.RAD, none⟩ "ans*2"
    [.var "ans", .op "*", .number (.fin 2)] rfl (by decide) (by decide)

/-- Well-formedness of an RPN output: every function instruction carries a
positive argument count. -/
def ArgCountsPos (out : List RpnToken) : Prop :=
  ∀ (name : String) (n : Nat), RpnToken.function name n ∈ out → 1 ≤ n

/-- The empty output is well formed. -/
theorem argCountsPos_nil : ArgCountsPos [] := by
  intro name n hmem
  cases hmem

/-- Tokens popped through the converter carry argument count 1. -/
theorem toRpnToken_argCountPos {t : Token} {r : RpnToken} (h : toRpnToken t = .ok r) :
    ∀ name n, r = RpnToken.function name n → 1 ≤ n := by
  intro name n hr
  cases t with
  | number v => simp only [toRpnToken] at h; cases h; exact RpnToken.noConfusion hr
  | op v => simp only [toRpnToken] at h; cases h; exact RpnToken.noConfusion hr
  | var m => simp only [toRpnToken] at h; cases h; exact RpnToken.noConfusion hr
  | function m =>
    simp only [toRpnToken] at h
    cases h
    cases hr
    exact le_refl 1
  | paren b => simp only [toRpnToken] at h; exact Except.noConfusion h
  | comma => simp only [toRpnToken] at h; exact Except.noConfusion h

/-- Appending a well-formed instruction preserves well-formedness. -/
theorem argCountsPos_append {out : List RpnToken} {r : RpnToken}
    (hp : ArgCountsPos out) (hr : ∀ name n, r = RpnToken.function name n → 1 ≤ n) :
    ArgCountsPos (out ++ [r]) := by
  intro name n hmem
  rcases List.mem_append.mp hmem with h1 | h2
  · exact hp name n h1
  · rw [List.mem_singleton] at h2
    exact hr name n h2.symm

/-- Popping to a paren preserves output well-formedness. -/
theorem popToParen_argCountsPos :
    ∀ (stack : List Token) (out : List RpnToken) (res : List RpnToken × List Token),
      popToParen stack out = .ok res → ArgCountsPos out → ArgCountsPos res.1 := by
  intro stack
  induction stack with
  | nil => intro out res h hp; cases h; exact hp
  | cons t rest ih =>
    intro out res h hp
    cases t with
    | paren b => simp only [popToParen] at h; cases h; exact hp
    | number v =>
      simp only [popToParen, toRpnToken] at h
      exact ih _ _ h (argCountsPos_append hp (fun _ _ hr => RpnToken.noConfusion hr))
    | op v =>
      simp only [popToParen, toRpnToken] at h
      exact ih _ _ h (argCountsPos_append hp (fun _ _ hr => RpnToken.noConfusion hr))
    | var n =>
      simp only [popToParen, toRpnToken] at h
      exact ih _ _ h (argCountsPos_append hp (fun _ _ hr => RpnToken.noConfusion hr))
    | function n =>
      simp only [popToParen, toRpnToken] at h
      exact ih _ _ h (argCountsPos_append hp (fun _ _ hr => by cases hr; exact le_refl 1))
    | comma => simp only [popToParen, toRpnToken] at h; exact Except.noConfusion h

/-- The precedence pop loop preserves output well-formedness. -/
theorem popOps_argCountsPos :
    ∀ (op : String) (stack : List Token) (out : List RpnToken),
      ArgCountsPos out → ArgCountsPos (popOps op stack out).1 := by
  intro op stack
  induction stack with
  | nil => intro out hp; exact hp
  | cons t rest ih =>
    intro out hp
    cases t with
    | op topOp =>
      simp only [popOps]
      split <;> split <;> first
        | exact ih _ (argCountsPos_append hp (fun _ _ hr => RpnToken.noConfusion hr))
        | exact hp
    | number v => exact hp
    | var n => exact hp
    | function n => exact hp
    | paren b => exact hp
    | comma => exact hp

/-- One translation step preserves output well-formedness: the only
function instructions it emits carry either count 1 (a function popped off
the stack) or a successor count (the closing-paren emission). -/
theorem toRpnStep_argCountsPos {st : RpnState} {t : Token} {st2 : RpnState}
    (h : toRpnStep st t = .ok st2) (hp : ArgCountsPos st.output) :
    ArgCountsPos st2.output := by
  cases t with
  | number v =>
    simp only [toRpnStep] at h
    cases h
    exact argCountsPos_append hp (fun _ _ hr => RpnToken.noConfusion hr)
  | var n =>
    simp only [toRpnStep] at h
    cases h
    exact argCountsPos_append hp (fun _ _ hr => RpnToken.noConfusion hr)
  | function n => simp only [toRpnStep] at h; cases h; exact hp
  | comma =>
    simp only [toRpnStep] at h
    split at h
    · exact Except.noConfusion h
    · exact Except.noConfusion h
    · split at h
      · exact Except.noConfusion h
      · split at h
        · exact Except.noConfusion h
        · next out stk heq =>
          cases h
          exact popToParen_argCountsPos _ _ _ heq hp
  | paren lp =>
    cases lp with
    | true => simp only [toRpnStep] at h; cases h; exact hp
    | false =>
      simp only [toRpnStep] at h
      split at h
      · exact Except.noConfusion h
      · split at h
        · exact Except.noConfusion h
        · next out stk heq =>
          split at h
          · exact Except.noConfusion h
          · split at h
            · exact Except.noConfusion h
            · split at h
              · cases h
                exact popToParen_argCountsPos _ _ _ heq hp
              · split at h
                · next k stk3 fname hstk =>
                  cases h
                  exact argCountsPos_append (popToParen_argCountsPos _ _ _ heq hp)
                    (fun _ _ hr => by cases hr; exact Nat.succ_le_succ (Nat.zero_le _))
                · exact Except.noConfusion h
  | op v =>
    simp only [toRpnStep] at h
    split at h
    · cases h; exact hp
    · cases h
      exact popOps_argCountsPos _ st.stack st.output hp

/-- The translation loop preserves output well-formedness. -/
theorem toRpnLoop_argCountsPos :
    ∀ (ts : List Token) (st st2 : RpnState), toRpnLoop ts st = .ok st2 →
      ArgCountsPos st.output → ArgCountsPos st2.output := by
  intro ts
  induction ts with
  | nil => intro st st2 h hp; simp only [toRpnLoop] at h; cases h; exact hp
  | cons t rest ih =>
    intro st st2 h hp
    simp only [toRpnLoop] at h
    cases hstep : toRpnStep st t with
    | error e => simp only [hstep] at h; exact Except.noConfusion h
    | ok st3 =>
      simp only [hstep] at h
      exact ih _ _ h (toRpnStep_argCountsPos hstep hp)

/-- The final drain preserves output well-formedness. -/
theorem drainStack_argCountsPos :
    ∀ (stack : List Token) (out rpn : List RpnToken), drainStack stack out = .ok rpn →
      ArgCountsPos out → ArgCountsPos rpn := by
  intro stack
  induction stack with
  | nil => intro out rpn h hp; simp only [drainStack] at h; cases h; exact hp
  | cons t rest ih =>
    intro out rpn h hp
    cases t with
    | paren b => simp only [drainStack] at h; exact Except.noConfusion h
    | comma => simp only [drainStack, toRpnToken] at h; exact Except.noConfusion h
    | number v =>
      simp only [drainStack, toRpnToken] at h
      exact ih _ _ h (argCountsPos_append hp (fun _ _ hr => RpnToken.noConfusion hr))
    | op v =>
      simp only [drainStack, toRpnToken] at h
      exact ih _ _ h (argCountsPos_append hp (fun _ _ hr => RpnToken.noConfusion hr))
    | var n =>
      simp only [drainStack, toRpnToken] at h
      exact ih _ _ h (argCountsPos_append hp (fun _ _ hr => RpnToken.noConfusion hr))
    | function n =>
      simp only [drainStack, toRpnToken] at h
      exact ih _ _ h (argCountsPos_append hp (fun _ _ hr => by cases hr; exact le_refl 1))

/-- Every successful translation produces a well-formed RPN output. -/
theorem toRpn_argCountsPos {ts : List Token} {rpn : List RpnToken}
    (h : toRpn ts = .ok rpn) : ArgCountsPos rpn := by
  unfold toRpn at h
  cases hloop : toRpnLoop ts initState with
  | error e => simp only [hloop] at h; exact Except.noConfusion h
  | ok st =>
    simp only [hloop] at h
    split at h
    · exact Except.noConfusion h
    · exact drainStack_argCountsPos _ _ _ h
        (toRpnLoop_argCountsPos ts initState st hloop argCountsPos_nil)

/-- C9: every function instruction emitted by a successful translation has
a positive argument count (a closing paren emits the counter plus one and
a popped function carries count 1), so the dedicated missing-arguments
error branch of min and max in the evaluator cannot fire for a translated
instruction; min() already fails during translation with the
missing-argument error. -/
theorem C9_function_argcount_positive :
    (∀ (ts : List Token) (rpn : List RpnToken) (name : String) (n : Nat),
      toRpn ts = .ok rpn → RpnToken.function name n ∈ rpn → 1 ≤ n) ∧
    (∀ (M : MathLib) (ctx : EvalContext) (stack : List JsNum) (n : Nat), 1 ≤ n →
      applyFunction M ctx stack "min" n ≠ .error "minの引数が不足しています" ∧
      applyFunction M ctx stack "max" n ≠ .error "maxの引数が不足しています") ∧
    (∀ (M : MathLib) (ctx : EvalContext),
      evaluate M "min()" ctx = .error "関数の引数が不足しています") := by
  refine ⟨?_, ?_, fun M ctx => rfl⟩
  · intro ts rpn name n h hmem
    exact toRpn_argCountsPos h name n hmem
  · intro M ctx stack n hn
    constructor
    · intro hcontra
      unfold applyFunction at hcontra
      cases hp : pullArgs stack n with
      | error e =>
        simp only [hp] at hcontra
        have he : e = "minの引数が不足しています" := Except.error.inj hcontra
        unfold pullArgs at hp
        split at hp
        · have h2 : "関数の引数が不足しています" = e := Except.error.inj hp
          rw [he] at h2
          exact absurd h2 (by decide)
        · exact Except.noConfusion hp
      | ok pr =>
        obtain ⟨args, rest⟩ := pr
        simp only [hp] at hcontra
        rw [if_neg (by omega : ¬ n < 1)] at hcontra
        exact Except.noConfusion hcontra
    · intro hcontra
      unfold applyFunction at hcontra
      cases hp : pullArgs stack n with
      | error e =>
        simp only [hp] at hcontra
        have he : e = "maxの引数が不足しています" := Except.error.inj hcontra
        unfold pullArgs at hp
        split at hp
        · have h2 : "関数の引数が不足しています" = e := Except.error.inj hp
          rw [he] at h2
          exact absurd h2 (by decide)
        · exact Except.noConfusion hp
      | ok pr =>
        obtain ⟨args, rest⟩ := pr
        simp only [hp] at hcontra
        rw [if_neg (by omega : ¬ n < 1)] at hcontra
        exact Except.noConfusion hcontra

/-- C9 witness: the translation of min(3,1) emits the function instruction
with argument count 2, which is positive, and a positive count never
triggers the dedicated missing-arguments branch. -/
theorem C9_function_argcount_positive_witness :
    toRpn [.function "min", .paren true, .number (.fin 3), .comma,
           .number (.fin 1), .paren false] =
      .ok [.number (.fin 3), .number (.fin 1), .function "min" 2] ∧
    1 ≤ 2 ∧
    applyFunction mathlib0 ⟨Mode.DEG, none⟩ [.fin 1, .fin 3] "min" 2 ≠
      .error "minの引数が不足しています" :=
  ⟨by decide,
   C9_function_argcount_positive.1
     [.function "min", .paren true, .number (.fin 3), .comma, .number (.fin 1), .paren false]
     [.number (.fin 3), .number (.fin 1), .function "min" 2] "min" 2 (by decide) (by decide),
   (C9_function_argcount_positive.2.1 mathlib0 ⟨Mode.DEG, none⟩ [.fin 1, .fin 3] 2 (by decide)).1⟩

/-- C4 witness: in the translation state reached inside min(1+ the last
significant token is a binary operator, the stack carries no comma, and
the comma step nevertheless succeeds. -/
theorem C4_comma_acceptance_witness :
    ∃ st2, toRpnStep
      ⟨[.number (.fin 1)], [.op "+", .paren true, .function "min"], [some 0], .operator⟩
      .comma = .ok st2 :=
  (C4_comma_acceptance.1
    ⟨[.number (.fin 1)], [.op "+", .paren true, .function "min"], [some 0], .operator⟩
    (by decide)).mpr ⟨⟨0, [], rfl⟩, by decide, by decide⟩
